import Mathlib

/-!
Verification of the diceware utility pair: the duration parser
(`src/duration.py`) and the leveled logger (`src/log_level.py`).

The Python code is shallowly embedded over `List Char` for strings and `ℚ`
for Python floats.  All inputs appearing in the claims are ASCII, so the
character classes of the `re` module (`\d`, `\s`, `\w`) and `str.strip` are
embedded in their ASCII readings.  Decimal numerals are read exactly into
`ℚ`; every concrete number appearing in the claims is exactly representable
as a double, so the `ℚ` model agrees with the float computation on them.
-/

namespace Diceware

/-! ## Character classes of the regex `(\d*\.?\d*)\s*(\w+)` -/

/-- The class of the regex token `\s` and of the characters removed by
`str.strip()` (ASCII fragment). -/
def pySpace (c : Char) : Bool :=
  c == ' ' || c == '\t' || c == '\n' || c == '\r' || c == '\x0b' || c == '\x0c'

/-- The class of the regex token `\w` (ASCII fragment): letters, digits and
the underscore. -/
def wordChar (c : Char) : Bool := c.isAlphanum || c == '_'

/-- `coded.strip()`: drop leading and trailing whitespace. -/
def pyStrip (s : List Char) : List Char :=
  ((s.dropWhile pySpace).reverse.dropWhile pySpace).reverse

/-- Length of the maximal run of `p`-characters at the head of `s`. -/
def runLen (p : Char → Bool) (s : List Char) : Nat := (s.takeWhile p).length

/-- Candidate splits for a greedy star over the character class `p`, in the
order the backtracking `re` engine tries them: the longest run first, then
ever shorter ones. -/
def starCands (p : Char → Bool) (s : List Char) : List (List Char × List Char) :=
  (List.range (runLen p s + 1)).reverse.map (fun i => (s.take i, s.drop i))

/-- Candidate splits for `\.?`: consume a dot when one is present (the
greedy, preferred alternative), else consume nothing. -/
def dotCands (s : List Char) : List (List Char × List Char) :=
  match s with
  | '.' :: r => [(['.'], r), ([], '.' :: r)]
  | _ => [([], s)]

/-- Last piece of the pattern, `\w+`: it ends the pattern, so the engine
keeps the maximal run, which must be nonempty; `g1` is the first group
accumulated so far. -/
def wplus (g1 : List Char) (s : List Char) : Option (List Char × List Char) :=
  let w := s.takeWhile wordChar
  if w.isEmpty then none else some (g1, w)

/-- The `\s*(\w+)` tail: greedy candidates for `\s*`, longest first. -/
def afterNum (g1 : List Char) (s : List Char) : Option (List Char × List Char) :=
  (starCands pySpace s).findSome? fun ws => wplus g1 ws.2

/-- The `\d*\s*(\w+)` tail after the optional dot: greedy candidates for
the second `\d*`, longest first, each extending the first group. -/
def afterDot (d1 dp : List Char) (s : List Char) : Option (List Char × List Char) :=
  (starCands Char.isDigit s).findSome? fun b => afterNum (d1 ++ dp ++ b.1) b.2

/-- The `\.?\d*\s*(\w+)` tail after the first digit run: try consuming a
dot first (greedy `?`), then not. -/
def afterD1 (d1 : List Char) (s : List Char) : Option (List Char × List Char) :=
  (dotCands s).findSome? fun dp => afterDot d1 dp.1 dp.2

/-- `re.match(r'(\d*\.?\d*)\s*(\w+)', s)`: anchored match of the duration
pattern, returning the two capture groups.  The staged `findSome?` searches
replay the engine's backtracking order (each star greedy, the most recent
choice point backtracked first). -/
def reMatch (s : List Char) : Option (List Char × List Char) :=
  (starCands Char.isDigit s).findSome? fun a => afterD1 a.1 a.2

/-! ## Python `float()` on the strings the first group can produce -/

/-- Value of a list of decimal digit characters. -/
def digitsToNat (s : List Char) : Nat :=
  s.foldl (fun n c => 10 * n + (c.toNat - '0'.toNat)) 0

/-- `float(s)` restricted to strings made of digits with at most one dot
(the only shapes the first capture group can take): fails (`ValueError`)
when there is no digit at all, otherwise reads the decimal exactly. -/
def floatOfChars (s : List Char) : Option ℚ :=
  match s.dropWhile Char.isDigit with
  | [] =>
      if (s.takeWhile Char.isDigit).isEmpty then none
      else some (digitsToNat (s.takeWhile Char.isDigit))
  | '.' :: t =>
      if t.all Char.isDigit && !((s.takeWhile Char.isDigit).isEmpty && t.isEmpty) then
        some ((digitsToNat (s.takeWhile Char.isDigit) : ℚ) +
          (digitsToNat t : ℚ) / (10 : ℚ) ^ t.length)
      else none
  | _ => none

/-! ## `Duration` (src/duration.py) -/

/-- The failure modes of `Duration.__init__`: the regex does not match (the
`.groups()` call raises `AttributeError`), `float()` rejects the numeric
group (`ValueError`), or `scale_code` raises its signal string. -/
inductive DurationError where
  | noMatch
  | badNumber
  | unitError (signal : String)
deriving DecidableEq

/-- Fuel-indexed body of the `split_code_word` loop; the fuel is the length
of the remaining word, which the loop decrements by one per iteration. -/
def scwAux : Nat → List Char → List (List Char)
  | 0, _ => []
  | _ + 1, [] => []
  | n + 1, c :: cs => (c :: cs) :: scwAux n (c :: cs).dropLast

/-- `Duration.split_code_word`: the word, then the word with its last
character removed, repeated down to a single character. -/
def split_code_word (code : List Char) : List (List Char) := scwAux code.length code

/-- `DurationSpec`: holds the single canonical attribute (seconds). -/
structure Duration where
  _seconds : ℚ
deriving DecidableEq

/-- `Duration.scale_code`: test the unit token against each unit's prefix
list in increasing-magnitude order, with the conversion amounts computed by
the chained products of the source. -/
def Duration.scale_code (code : List Char) : Except DurationError ℚ :=
  let seconds : ℚ := 1
  if code ∈ split_code_word "seconds".toList then .ok seconds else
  let minutes := seconds * 60
  if code ∈ split_code_word "minutes".toList then .ok minutes else
  let hours := minutes * 60
  if code ∈ split_code_word "hours".toList then .ok hours else
  let days := hours * 24
  if code ∈ split_code_word "days".toList then .ok days else
  let years := days * 365.25
  if code ∈ split_code_word "years".toList then .ok years else
  let decades := years * 10
  if code ∈ split_code_word "decades".toList then .ok decades else
  let centuries := decades * 10
  if code ∈ split_code_word "centuries".toList then .ok centuries else
  let millennium := centuries * 10
  if code ∈ split_code_word "millennium".toList then .ok millennium else
  .error (.unitError "Invalid duration code!")

/-- `Duration.__init__`: strip the input, match the regex, convert the
numeric group with `float()` (evaluated first, as in the source), then scale
by the resolved unit ratio. -/
def Duration.parse (coded : List Char) : Except DurationError Duration :=
  match reMatch (pyStrip coded) with
  | none => .error .noMatch
  | some g =>
    match floatOfChars g.1 with
    | none => .error .badNumber
    | some q => (Duration.scale_code g.2).map fun k => ⟨q * k⟩

/-- Property `Duration.seconds`. -/
def Duration.seconds (d : Duration) : ℚ := d._seconds

/-- Property `Duration.minutes = seconds / 60`. -/
def Duration.minutes (d : Duration) : ℚ := d.seconds / 60

/-- Property `Duration.hours = minutes / 60`. -/
def Duration.hours (d : Duration) : ℚ := d.minutes / 60

/-- Property `Duration.days = hours / 24`. -/
def Duration.days (d : Duration) : ℚ := d.hours / 24

/-- Property `Duration.years = days / 365.25`. -/
def Duration.years (d : Duration) : ℚ := d.days / 365.25

/-! ## `LogLevel` (src/log_level.py) -/

/-- The five severity levels, in the (definition) order a Python `Enum`
iterates them. -/
inductive LogLevel where
  | Error | Warn | Info | Debug | Trace
deriving DecidableEq

/-- The explicit integer rank of each member (`.value` in the source). -/
def LogLevel.value : LogLevel → Int
  | .Error => 2 | .Warn => 1 | .Info => 0 | .Debug => -1 | .Trace => -2

/-- Enum iteration order: definition order, `Error` first. -/
def LogLevel.members : List LogLevel := [.Error, .Warn, .Info, .Debug, .Trace]

/-- The clamp `min(upper.value, max(value, lower.value))` computed by
`from_value`, with `upper = Error` and `lower = Trace`. -/
def LogLevel.clamped (v : Int) : Int :=
  min (LogLevel.value .Error) (max v (LogLevel.value .Trace))

/-- `LogLevel.from_value`: clamp, then return the first member whose value
equals the clamped integer; the trailing `raise ValueError(...)` of the
source is the error branch (its message is a non-f-string literal in the
source; the exact text is irrelevant to the claims). -/
def LogLevel.from_value (v : Int) : Except String LogLevel :=
  match LogLevel.members.find? (fun m => m.value == LogLevel.clamped v) with
  | some m => .ok m
  | none => .error "Value not valid for LogLevel"

/-- `LogLevel.color`: the chain of equality checks of the source, with the
trailing `raise 'Unregistered LogLevel'` as the error branch. -/
def LogLevel.color (level : LogLevel) : Except String String :=
  if level = .Error then .ok "red"
  else if level = .Warn then .ok "yellow"
  else if level = .Info then .ok "white"
  else if level = .Debug then .ok "magenta"
  else if level = .Trace then .ok "cyan"
  else .error "Unregistered LogLevel"

/-- `LogLevel.colorer`: look the color up and close over the external
`termcolor.colored` capability (here the opaque parameter `colorize`). -/
def LogLevel.colorer (colorize : String → String → String) (level : LogLevel) :
    Except String (String → String) :=
  (LogLevel.color level).map fun c => fun message => colorize message c

/-- The `log` function returned by `LogLevel.logger(cutoff, wrap)`.  The
result models the sequence of strings passed to the sink `wrap`: `.ok []`
for the filtered no-op, `.ok [decorated]` for exactly one sink call.
Message elements are stringified by the external `toStr` (Python `str`) and
joined with a single space, as in `' '.join(map(str, messages))`. -/
def LogLevel.log {α : Type} (colorize : String → String → String) (toStr : α → String)
    (cutoff level : LogLevel) (messages : List α) : Except String (List String) :=
  if level.value < cutoff.value then .ok []
  else (LogLevel.colorer colorize level).map
    fun f => [f (String.intercalate " " (messages.map toStr))]

/-! ## Specification-side vocabulary (from the spec's words, for comparison
with the source-derived definitions) -/

/-- The eight unit names in the spec's increasing-magnitude order. -/
def unitNames : List (List Char) :=
  ["seconds".toList, "minutes".toList, "hours".toList, "days".toList,
   "years".toList, "decades".toList, "centuries".toList, "millennium".toList]

/-- The spec's fixed ratio table: seconds=1, minutes=60, hours=3600,
days=86400, years=31557600 (365.25 days), decades=10 years,
centuries=100 years, millennium=1000 years. -/
def ratioToSeconds (u : List Char) : ℚ :=
  if u = "seconds".toList then 1
  else if u = "minutes".toList then 60
  else if u = "hours".toList then 3600
  else if u = "days".toList then 86400
  else if u = "years".toList then 31557600
  else if u = "decades".toList then 10 * 31557600
  else if u = "centuries".toList then 100 * 31557600
  else if u = "millennium".toList then 1000 * 31557600
  else 0

/-- The spec's resolution algorithm, stated from its words: walk the units
in increasing-magnitude order and return the ratio of the first unit whose
set of non-empty prefixes contains the caller's token. -/
def resolveSpec (code : List Char) : Option ℚ :=
  unitNames.findSome? fun w =>
    if !code.isEmpty && code.isPrefixOf w then some (ratioToSeconds w) else none

/-- A magnitude string is valid exactly when `float()` accepts it: digits
with at most one dot, and at least one digit. -/
def validMagnitude (m : List Char) : Bool := (floatOfChars m).isSome

/-- A unit token is recognized when it is a non-empty prefix of one of the
eight unit names. -/
def recognizedUnit (u : List Char) : Bool :=
  !u.isEmpty && unitNames.any fun w => u.isPrefixOf w

/-! ## Helper lemmas: characters -/

theorem pySpace_cases {c : Char} (h : pySpace c = true) :
    c = ' ' ∨ c = '\t' ∨ c = '\n' ∨ c = '\r' ∨ c = '\x0b' ∨ c = '\x0c' := by
  simp [pySpace] at h
  tauto

theorem pySpace_not_digit {c : Char} (h : pySpace c = true) : c.isDigit = false := by
  rcases pySpace_cases h with rfl | rfl | rfl | rfl | rfl | rfl <;> rfl

theorem pySpace_not_word {c : Char} (h : pySpace c = true) : wordChar c = false := by
  rcases pySpace_cases h with rfl | rfl | rfl | rfl | rfl | rfl <;> rfl

theorem pySpace_ne_dot {c : Char} (h : pySpace c = true) : c ≠ '.' := by
  rcases pySpace_cases h with rfl | rfl | rfl | rfl | rfl | rfl <;> decide

theorem wordChar_not_space {c : Char} (h : wordChar c = true) : pySpace c = false := by
  cases hs : pySpace c
  · rfl
  · rw [pySpace_not_word hs] at h; cases h

theorem wordChar_ne_dot {c : Char} (h : wordChar c = true) : c ≠ '.' := by
  intro hc; subst hc; cases h

theorem digit_not_space {c : Char} (h : c.isDigit = true) : pySpace c = false := by
  cases hs : pySpace c
  · rfl
  · rw [pySpace_not_digit hs] at h; cases h

/-! ## Helper lemmas: lists -/

theorem findSome?_cons_some {α β : Type} (f : α → Option β) (a : α) (l : List α) (b : β)
    (h : f a = some b) : (a :: l).findSome? f = some b := by
  simp [List.findSome?_cons, h]

theorem takeWhile_eq_left {p : Char → Bool} {d r : List Char}
    (hd : ∀ c ∈ d, p c = true) (hr : ∀ c, r.head? = some c → p c = false) :
    (d ++ r).takeWhile p = d ∧ (d ++ r).dropWhile p = r := by
  induction d with
  | nil =>
    cases r with
    | nil => exact ⟨rfl, rfl⟩
    | cons c t =>
      have hc := hr c rfl
      exact ⟨by simp [List.takeWhile_cons, hc], by simp [List.dropWhile_cons, hc]⟩
  | cons c d ih =>
    have hc := hd c (List.mem_cons_self c d)
    obtain ⟨h1, h2⟩ := ih (fun x hx => hd x (List.mem_cons_of_mem _ hx))
    exact ⟨by simp [List.takeWhile_cons, hc, h1], by simp [List.dropWhile_cons, hc, h2]⟩

theorem dropWhile_append_head {p : Char → Bool} {l₂ : List Char} (l₁ : List Char)
    (h : ∀ c, l₂.head? = some c → p c = false) :
    (l₁ ++ l₂).dropWhile p = l₁.dropWhile p ++ l₂ := by
  induction l₁ with
  | nil =>
    cases l₂ with
    | nil => rfl
    | cons c t => simp [List.dropWhile_cons, h c rfl]
  | cons c t ih =>
    cases hc : p c <;> simp [List.dropWhile_cons, hc, ih]

theorem dropWhile_suffix_exists (p : Char → Bool) (l : List Char) :
    ∃ t, t ++ l.dropWhile p = l := by
  induction l with
  | nil => exact ⟨[], rfl⟩
  | cons c t ih =>
    cases hc : p c
    · exact ⟨[], by simp [List.dropWhile_cons, hc]⟩
    · obtain ⟨u, hu⟩ := ih
      exact ⟨c :: u, by simp [List.dropWhile_cons, hc, hu]⟩

theorem take_len_append (d r : List Char) : (d ++ r).take d.length = d := by
  induction d with
  | nil => rfl
  | cons c t ih => simp [ih]

theorem drop_len_append (d r : List Char) : (d ++ r).drop d.length = r := by
  induction d with
  | nil => rfl
  | cons c t ih => simp [ih]

theorem head?_append_left {α : Type} {l₁ : List α} (l₂ : List α) (h : l₁ ≠ []) :
    (l₁ ++ l₂).head? = l₁.head? := by
  cases l₁ with
  | nil => exact absurd rfl h
  | cons c t => rfl

theorem isPrefixOf_iff_exists {l w : List Char} :
    l.isPrefixOf w = true ↔ ∃ t, l ++ t = w := by
  induction l generalizing w with
  | nil => simp [List.isPrefixOf]
  | cons c cs ih =>
    cases w with
    | nil => simp [List.isPrefixOf]
    | cons b bs => simp [List.isPrefixOf, ih]

theorem mem_of_head? {α : Type} {l : List α} {c : α} (h : l.head? = some c) : c ∈ l := by
  cases l with
  | nil => cases h
  | cons a t =>
    have : a = c := by simpa using h
    subst this
    exact List.mem_cons_self a t

theorem mem_of_getLast? {α : Type} {l : List α} {c : α} (h : l.getLast? = some c) : c ∈ l := by
  have h1 : l.reverse.head? = some c := by rw [List.head?_reverse]; exact h
  exact List.mem_reverse.mp (mem_of_head? h1)

/-! ## Helper lemmas: the staged regex match -/

theorem starCands_cons (p : Char → Bool) (s : List Char) :
    starCands p s = (s.take (runLen p s), s.drop (runLen p s)) ::
      ((List.range (runLen p s)).reverse.map fun i => (s.take i, s.drop i)) := by
  unfold starCands
  rw [List.range_succ, List.reverse_append]
  rfl

theorem starCands_decomp {p : Char → Bool} {d r : List Char}
    (hd : ∀ c ∈ d, p c = true) (hr : ∀ c, r.head? = some c → p c = false) :
    starCands p (d ++ r) = (d, r) ::
      ((List.range d.length).reverse.map fun i => ((d ++ r).take i, (d ++ r).drop i)) := by
  obtain ⟨h1, _⟩ := takeWhile_eq_left hd hr
  have hlen : runLen p (d ++ r) = d.length := by rw [runLen, h1]
  rw [starCands_cons, hlen, take_len_append, drop_len_append]

theorem dotCands_no_dot {s : List Char} (h : ∀ c, s.head? = some c → c ≠ '.') :
    dotCands s = [([], s)] := by
  cases s with
  | nil => rfl
  | cons c t =>
    have hc := h c rfl
    unfold dotCands
    split
    · next r heq =>
      injection heq with h1 h2
      exact absurd h1 hc
    · rfl

theorem head_not_digit_of_space_word {ws w : List Char} (r : List Char)
    (hws : ∀ c ∈ ws, pySpace c = true)
    (_hw : ∀ c ∈ w, wordChar c = true) (hwne : w ≠ [])
    (hnd : ws = [] → ∀ c, w.head? = some c → c.isDigit = false) :
    ∀ c, (ws ++ (w ++ r)).head? = some c → c.isDigit = false := by
  intro c hc
  cases ws with
  | nil =>
    simp only [List.nil_append] at hc
    rw [head?_append_left r hwne] at hc
    exact hnd rfl c hc
  | cons a t =>
    have ha : a = c := by simpa using hc
    subst ha
    exact pySpace_not_digit (hws a (List.mem_cons_self a t))

theorem head_ne_dot_of_space_word {ws w : List Char} (r : List Char)
    (hws : ∀ c ∈ ws, pySpace c = true)
    (hw : ∀ c ∈ w, wordChar c = true) (hwne : w ≠ []) :
    ∀ c, (ws ++ (w ++ r)).head? = some c → c ≠ '.' := by
  intro c hc
  cases ws with
  | nil =>
    simp only [List.nil_append] at hc
    rw [head?_append_left r hwne] at hc
    exact wordChar_ne_dot (hw c (mem_of_head? hc))
  | cons a t =>
    have ha : a = c := by simpa using hc
    subst ha
    exact pySpace_ne_dot (hws a (List.mem_cons_self a t))

theorem wplus_eq (g1 w r : List Char) (hw : ∀ c ∈ w, wordChar c = true) (hwne : w ≠ [])
    (hr : ∀ c, r.head? = some c → wordChar c = false) :
    wplus g1 (w ++ r) = some (g1, w) := by
  obtain ⟨h1, _⟩ := takeWhile_eq_left hw hr
  unfold wplus
  rw [h1]
  rw [if_neg (by simp [hwne])]

theorem afterNum_eq (g1 ws w r : List Char)
    (hws : ∀ c ∈ ws, pySpace c = true)
    (hw : ∀ c ∈ w, wordChar c = true) (hwne : w ≠ [])
    (hr : ∀ c, r.head? = some c → wordChar c = false) :
    afterNum g1 (ws ++ (w ++ r)) = some (g1, w) := by
  have hwr : ∀ c, (w ++ r).head? = some c → pySpace c = false := by
    intro c hc
    rw [head?_append_left r hwne] at hc
    exact wordChar_not_space (hw c (mem_of_head? hc))
  unfold afterNum
  rw [starCands_decomp hws hwr]
  exact findSome?_cons_some _ _ _ _ (wplus_eq g1 w r hw hwne hr)

theorem afterDot_eq (d1 dp d2 ws w r : List Char)
    (hd2 : ∀ c ∈ d2, c.isDigit = true)
    (hws : ∀ c ∈ ws, pySpace c = true)
    (hw : ∀ c ∈ w, wordChar c = true) (hwne : w ≠ [])
    (hr : ∀ c, r.head? = some c → wordChar c = false)
    (hnd : ws = [] → ∀ c, w.head? = some c → c.isDigit = false) :
    afterDot d1 dp (d2 ++ (ws ++ (w ++ r))) = some (d1 ++ dp ++ d2, w) := by
  have hafter := head_not_digit_of_space_word r hws hw hwne hnd
  unfold afterDot
  rw [starCands_decomp hd2 hafter]
  exact findSome?_cons_some _ _ _ _ (afterNum_eq (d1 ++ dp ++ d2) ws w r hws hw hwne hr)

theorem afterD1_eq (d1 dp d2 ws w r : List Char)
    (hdp : dp = [] ∨ dp = ['.'])
    (hd2 : ∀ c ∈ d2, c.isDigit = true)
    (hdp2 : dp = [] → d2 = [])
    (hws : ∀ c ∈ ws, pySpace c = true)
    (hw : ∀ c ∈ w, wordChar c = true) (hwne : w ≠ [])
    (hr : ∀ c, r.head? = some c → wordChar c = false)
    (hnd : ws = [] → ∀ c, w.head? = some c → c.isDigit = false) :
    afterD1 d1 (dp ++ (d2 ++ (ws ++ (w ++ r)))) = some (d1 ++ dp ++ d2, w) := by
  rcases hdp with rfl | rfl
  · have hd2e := hdp2 rfl
    subst hd2e
    have hnodot := head_ne_dot_of_space_word r hws hw hwne
    unfold afterD1
    simp only [List.nil_append]
    rw [dotCands_no_dot hnodot]
    exact findSome?_cons_some _ _ _ _ (afterDot_eq d1 [] [] ws w r (by simp) hws hw hwne hr hnd)
  · unfold afterD1
    show (dotCands ('.' :: (d2 ++ (ws ++ (w ++ r))))).findSome? _ = _
    rw [show dotCands ('.' :: (d2 ++ (ws ++ (w ++ r)))) =
      [(['.'], d2 ++ (ws ++ (w ++ r))), ([], '.' :: (d2 ++ (ws ++ (w ++ r))))] from rfl]
    exact findSome?_cons_some _ _ _ _ (afterDot_eq d1 ['.'] d2 ws w r hd2 hws hw hwne hr hnd)

theorem reMatch_decomp (d1 dp d2 ws w r : List Char)
    (hd1 : ∀ c ∈ d1, c.isDigit = true)
    (hdp : dp = [] ∨ dp = ['.'])
    (hd2 : ∀ c ∈ d2, c.isDigit = true)
    (hdp2 : dp = [] → d2 = [])
    (hws : ∀ c ∈ ws, pySpace c = true)
    (hw : ∀ c ∈ w, wordChar c = true) (hwne : w ≠ [])
    (hr : ∀ c, r.head? = some c → wordChar c = false)
    (hnd : ws = [] → ∀ c, w.head? = some c → c.isDigit = false) :
    reMatch (d1 ++ (dp ++ (d2 ++ (ws ++ (w ++ r))))) = some (d1 ++ dp ++ d2, w) := by
  have hrest : ∀ c, (dp ++ (d2 ++ (ws ++ (w ++ r)))).head? = some c → c.isDigit = false := by
    intro c hc
    rcases hdp with h0 | h0 <;> subst h0
    · have hd2e := hdp2 rfl
      subst hd2e
      simp only [List.nil_append] at hc
      exact head_not_digit_of_space_word r hws hw hwne hnd c hc
    · have : '.' = c := by simpa using hc
      subst this
      rfl
  unfold reMatch
  rw [starCands_decomp hd1 hrest]
  exact findSome?_cons_some _ _ _ _ (afterD1_eq d1 dp d2 ws w r hdp hd2 hdp2 hws hw hwne hr hnd)

/-! ## Helper lemmas: stripping and the full match -/

theorem dropWhile_eq_self_of_head {p : Char → Bool} {s : List Char}
    (h : ∀ c, s.head? = some c → p c = false) : s.dropWhile p = s := by
  cases s with
  | nil => rfl
  | cons c t => simp [List.dropWhile_cons, h c rfl]

theorem pyStrip_concat (m ws u r : List Char) (hmne : m ≠ [])
    (hm : ∀ c, m.head? = some c → pySpace c = false)
    (hu : ∀ c, u.getLast? = some c → pySpace c = false) (hune : u ≠ []) :
    pyStrip (m ++ (ws ++ (u ++ r))) =
      m ++ (ws ++ (u ++ (r.reverse.dropWhile pySpace).reverse)) := by
  unfold pyStrip
  have h1 : (m ++ (ws ++ (u ++ r))).dropWhile pySpace = m ++ (ws ++ (u ++ r)) := by
    apply dropWhile_eq_self_of_head
    intro c hc
    rw [head?_append_left _ hmne] at hc
    exact hm c hc
  rw [h1]
  rw [show (m ++ (ws ++ (u ++ r))).reverse =
    r.reverse ++ (u.reverse ++ (ws.reverse ++ m.reverse)) by simp]
  rw [dropWhile_append_head r.reverse (by
    intro c hc
    rw [head?_append_left _ (by simpa using hune)] at hc
    rw [List.head?_reverse] at hc
    exact hu c hc)]
  simp

theorem stripped_tail_head {r : List Char}
    (hr : ∀ c, r.head? = some c → pySpace c = true) :
    ∀ c, ((r.reverse.dropWhile pySpace).reverse).head? = some c → wordChar c = false := by
  intro c hc
  obtain ⟨t, ht⟩ := dropWhile_suffix_exists pySpace r.reverse
  have hsplit : r = (r.reverse.dropWhile pySpace).reverse ++ t.reverse := by
    have h2 := congrArg List.reverse ht
    simpa using h2.symm
  have hne : (r.reverse.dropWhile pySpace).reverse ≠ [] := by
    intro h0
    rw [h0] at hc
    cases hc
  have h3 : r.head? = some c := by
    rw [hsplit, head?_append_left _ hne]
    exact hc
  exact pySpace_not_word (hr c h3)

theorem floatOfChars_decomp {m : List Char} (h : (floatOfChars m).isSome = true) :
    ∃ d1 dp d2, m = d1 ++ (dp ++ d2) ∧ (∀ c ∈ d1, c.isDigit = true) ∧
      (dp = [] ∨ dp = ['.']) ∧ (∀ c ∈ d2, c.isDigit = true) ∧ (dp = [] → d2 = []) ∧
      m ≠ [] ∧ (∀ c, m.head? = some c → pySpace c = false) := by
  have hd1 : ∀ c ∈ m.takeWhile Char.isDigit, c.isDigit = true := fun c hc =>
    List.mem_takeWhile_imp hc
  have hm0 : m.takeWhile Char.isDigit ++ m.dropWhile Char.isDigit = m :=
    List.takeWhile_append_dropWhile Char.isDigit m
  unfold floatOfChars at h
  split at h
  · next heq =>
    have hne : (m.takeWhile Char.isDigit).isEmpty = false := by
      cases hE : (m.takeWhile Char.isDigit).isEmpty
      · rfl
      · rw [if_pos hE] at h
        cases h
    have hd1ne : m.takeWhile Char.isDigit ≠ [] := by simpa using hne
    have hmeq : m = m.takeWhile Char.isDigit ++ ([] ++ []) := by
      rw [heq] at hm0
      simpa using hm0.symm
    refine ⟨m.takeWhile Char.isDigit, [], [], hmeq, hd1, Or.inl rfl, by simp,
      fun _ => rfl, ?_, ?_⟩
    · intro h0
      exact hd1ne (by rw [h0]; rfl)
    · intro c hc
      have hheads : m.head? = (m.takeWhile Char.isDigit).head? := by
        conv_lhs => rw [hmeq]
        exact head?_append_left _ hd1ne
      rw [hheads] at hc
      exact digit_not_space (hd1 c (mem_of_head? hc))
  · next t heq =>
    have hcond : (t.all Char.isDigit && !((m.takeWhile Char.isDigit).isEmpty && t.isEmpty))
        = true := by
      cases hE : (t.all Char.isDigit && !((m.takeWhile Char.isDigit).isEmpty && t.isEmpty))
      · rw [hE] at h
        simp at h
      · rfl
    rw [Bool.and_eq_true] at hcond
    obtain ⟨ht, _⟩ := hcond
    have htd : ∀ c ∈ t, c.isDigit = true := by simpa [List.all_eq_true] using ht
    have hmeq : m = m.takeWhile Char.isDigit ++ (['.'] ++ t) := by
      rw [heq] at hm0
      exact hm0.symm
    refine ⟨m.takeWhile Char.isDigit, ['.'], t, hmeq, hd1, Or.inr rfl, htd,
      fun h0 => absurd h0 (by simp), ?_, ?_⟩
    · intro h0
      have h2 := hmeq
      rw [h0] at h2
      simp at h2
    · intro c hc
      cases hD : m.takeWhile Char.isDigit with
      | nil =>
        rw [hmeq, hD] at hc
        have : '.' = c := by simpa using hc
        subst this
        rfl
      | cons a as =>
        rw [hmeq, hD] at hc
        have ha : a = c := by simpa using hc
        subst ha
        exact digit_not_space (hd1 a (by rw [hD]; exact List.mem_cons_self a as))
  · next heq1 heq2 =>
    cases h

theorem parse_split (m u ws r : List Char)
    (hm : validMagnitude m = true)
    (hws : ∀ c ∈ ws, pySpace c = true)
    (hu : ∀ c ∈ u, wordChar c = true) (hune : u ≠ [])
    (hnd : ws = [] → ∀ c, u.head? = some c → c.isDigit = false)
    (hr : ∀ c, r.head? = some c → pySpace c = true) :
    reMatch (pyStrip (m ++ (ws ++ (u ++ r)))) = some (m, u) := by
  obtain ⟨d1, dp, d2, hmeq, hd1, hdp, hd2, hdp2, hmne, hmhead⟩ := floatOfChars_decomp hm
  have hulast : ∀ c, u.getLast? = some c → pySpace c = false := fun c hc =>
    wordChar_not_space (hu c (mem_of_getLast? hc))
  rw [pyStrip_concat m ws u r hmne hmhead hulast hune]
  have hr' := stripped_tail_head hr
  have hmain := reMatch_decomp d1 dp d2 ws u ((r.reverse.dropWhile pySpace).reverse)
    hd1 hdp hd2 hdp2 hws hu hune hr' hnd
  rw [hmeq]
  rw [show (d1 ++ (dp ++ d2)) ++ (ws ++ (u ++ (r.reverse.dropWhile pySpace).reverse)) =
    d1 ++ (dp ++ (d2 ++ (ws ++ (u ++ (r.reverse.dropWhile pySpace).reverse)))) by simp]
  rw [hmain]
  rw [List.append_assoc d1 dp d2]

theorem parse_eval (m u ws r : List Char) (q : ℚ)
    (hm : floatOfChars m = some q)
    (hws : ∀ c ∈ ws, pySpace c = true)
    (hu : ∀ c ∈ u, wordChar c = true) (hune : u ≠ [])
    (hnd : ws = [] → ∀ c, u.head? = some c → c.isDigit = false)
    (hr : ∀ c, r.head? = some c → pySpace c = true) :
    Duration.parse (m ++ (ws ++ (u ++ r))) =
      (Duration.scale_code u).map fun k => ⟨q * k⟩ := by
  have hvm : validMagnitude m = true := by unfold validMagnitude; rw [hm]; rfl
  have h1 := parse_split m u ws r hvm hws hu hune hnd hr
  unfold Duration.parse
  rw [h1]
  simp only [hm]

/-! ## Helper lemmas: `split_code_word` is the non-empty-prefix list -/

theorem dropLast_cons_ne {α : Type} (a : α) {l : List α} (h : l ≠ []) :
    (a :: l).dropLast = a :: l.dropLast := by
  cases l with
  | nil => exact absurd rfl h
  | cons b t => rfl

theorem dropLast_append_ne {l₂ : List Char} (l₁ : List Char) (h : l₂ ≠ []) :
    (l₁ ++ l₂).dropLast = l₁ ++ l₂.dropLast := by
  induction l₁ with
  | nil => rfl
  | cons a t ih =>
    have hne : t ++ l₂ ≠ [] := by
      intro h0
      exact h (List.append_eq_nil.mp h0).2
    rw [List.cons_append, dropLast_cons_ne a hne, ih, List.cons_append]

theorem isPrefixOf_refl (l : List Char) : l.isPrefixOf l = true := by
  induction l with
  | nil => rfl
  | cons c t ih => simp [List.isPrefixOf, ih]

theorem isPrefixOf_dropLast {code w : List Char} (h : code.isPrefixOf w.dropLast = true) :
    code.isPrefixOf w = true := by
  obtain ⟨t, ht⟩ := isPrefixOf_iff_exists.mp h
  cases w with
  | nil =>
    simp only [List.dropLast_nil] at ht
    obtain ⟨h1, _⟩ := List.append_eq_nil.mp ht
    subst h1
    rfl
  | cons a as =>
    apply isPrefixOf_iff_exists.mpr
    refine ⟨t ++ [(a :: as).getLast (List.cons_ne_nil a as)], ?_⟩
    rw [← List.append_assoc, ht]
    exact List.dropLast_concat_getLast (List.cons_ne_nil a as)

theorem scw_cons (c : Char) (cs : List Char) :
    split_code_word (c :: cs) = (c :: cs) :: split_code_word ((c :: cs).dropLast) := by
  unfold split_code_word
  rw [List.length_dropLast]
  rfl

theorem mem_scw_aux (n : Nat) : ∀ w : List Char, w.length ≤ n → ∀ code : List Char,
    (code ∈ split_code_word w ↔ code ≠ [] ∧ code.isPrefixOf w = true) := by
  induction n with
  | zero =>
    intro w hw code
    have hw0 : w = [] := List.length_eq_zero.mp (Nat.le_zero.mp hw)
    subst hw0
    constructor
    · intro h
      cases h
    · rintro ⟨h1, h2⟩
      obtain ⟨t, ht⟩ := isPrefixOf_iff_exists.mp h2
      exact absurd (List.append_eq_nil.mp ht).1 h1
  | succ n ih =>
    intro w hw code
    cases w with
    | nil =>
      constructor
      · intro h
        cases h
      · rintro ⟨h1, h2⟩
        obtain ⟨t, ht⟩ := isPrefixOf_iff_exists.mp h2
        exact absurd (List.append_eq_nil.mp ht).1 h1
    | cons c cs =>
      have hlen : ((c :: cs).dropLast).length ≤ n := by
        rw [List.length_dropLast]
        simpa using Nat.le_of_succ_le_succ hw
      rw [scw_cons, List.mem_cons, ih _ hlen code]
      constructor
      · rintro (rfl | ⟨h1, h2⟩)
        · exact ⟨List.cons_ne_nil c cs, isPrefixOf_refl _⟩
        · exact ⟨h1, isPrefixOf_dropLast h2⟩
      · rintro ⟨h1, h2⟩
        obtain ⟨t, ht⟩ := isPrefixOf_iff_exists.mp h2
        cases t with
        | nil =>
          left
          simpa using ht
        | cons a t' =>
          right
          refine ⟨h1, isPrefixOf_iff_exists.mpr ⟨(a :: t').dropLast, ?_⟩⟩
          rw [← ht, dropLast_append_ne code (List.cons_ne_nil a t')]

theorem mem_scw {code w : List Char} :
    code ∈ split_code_word w ↔ code ≠ [] ∧ code.isPrefixOf w = true :=
  mem_scw_aux w.length w (Nat.le_refl _) code

theorem scw_bool {code w : List Char} :
    ((!code.isEmpty && code.isPrefixOf w) = true) ↔ code ∈ split_code_word w := by
  rw [mem_scw, Bool.and_eq_true, Bool.not_eq_true']
  constructor
  · rintro ⟨h1, h2⟩
    exact ⟨by simpa using h1, h2⟩
  · rintro ⟨h1, h2⟩
    exact ⟨by simpa using h1, h2⟩

/-! ## Helper lemmas: unit resolution -/

theorem findSome?_cons_none {α β : Type} (f : α → Option β) (a : α) (l : List α)
    (h : f a = none) : (a :: l).findSome? f = l.findSome? f := by
  simp [List.findSome?_cons, h]

theorem recognizedUnit_facts {u : List Char} (h : recognizedUnit u = true) :
    u ≠ [] ∧ (∀ c ∈ u, wordChar c = true) ∧ (∀ c, u.head? = some c → c.isDigit = false) := by
  unfold recognizedUnit at h
  rw [Bool.and_eq_true] at h
  obtain ⟨h1, h2⟩ := h
  have hune : u ≠ [] := by simpa using h1
  rw [List.any_eq_true] at h2
  obtain ⟨w, hw, hpre⟩ := h2
  obtain ⟨t, ht⟩ := isPrefixOf_iff_exists.mp hpre
  have hsub : ∀ c ∈ u, c ∈ w := by
    intro c hc
    rw [← ht]
    exact List.mem_append_left t hc
  have hchars : ∀ w0 ∈ unitNames, ∀ c ∈ w0, wordChar c = true ∧ c.isDigit = false := by decide
  exact ⟨hune, fun c hc => (hchars w hw c (hsub c hc)).1,
    fun c hc => (hchars w hw c (hsub c (mem_of_head? hc))).2⟩

theorem scale_code_of_recognized {u : List Char} (h : recognizedUnit u = true) :
    ∃ k, Duration.scale_code u = .ok k := by
  have hmem : ∃ w ∈ unitNames, u ∈ split_code_word w := by
    unfold recognizedUnit at h
    rw [Bool.and_eq_true] at h
    obtain ⟨h1, h2⟩ := h
    rw [List.any_eq_true] at h2
    obtain ⟨w, hw, hpre⟩ := h2
    exact ⟨w, hw, scw_bool.mp (by rw [Bool.and_eq_true]; exact ⟨h1, hpre⟩)⟩
  simp only [Duration.scale_code]
  by_cases h1 : u ∈ split_code_word "seconds".toList
  · exact ⟨_, by rw [if_pos h1]⟩
  rw [if_neg h1]
  by_cases h2 : u ∈ split_code_word "minutes".toList
  · exact ⟨_, by rw [if_pos h2]⟩
  rw [if_neg h2]
  by_cases h3 : u ∈ split_code_word "hours".toList
  · exact ⟨_, by rw [if_pos h3]⟩
  rw [if_neg h3]
  by_cases h4 : u ∈ split_code_word "days".toList
  · exact ⟨_, by rw [if_pos h4]⟩
  rw [if_neg h4]
  by_cases h5 : u ∈ split_code_word "years".toList
  · exact ⟨_, by rw [if_pos h5]⟩
  rw [if_neg h5]
  by_cases h6 : u ∈ split_code_word "decades".toList
  · exact ⟨_, by rw [if_pos h6]⟩
  rw [if_neg h6]
  by_cases h7 : u ∈ split_code_word "centuries".toList
  · exact ⟨_, by rw [if_pos h7]⟩
  rw [if_neg h7]
  by_cases h8 : u ∈ split_code_word "millennium".toList
  · exact ⟨_, by rw [if_pos h8]⟩
  exfalso
  obtain ⟨w, hw, hu⟩ := hmem
  simp only [unitNames, List.mem_cons, List.not_mem_nil, or_false] at hw
  rcases hw with rfl | rfl | rfl | rfl | rfl | rfl | rfl | rfl
  · exact h1 hu
  · exact h2 hu
  · exact h3 hu
  · exact h4 hu
  · exact h5 hu
  · exact h6 hu
  · exact h7 hu
  · exact h8 hu

theorem scale_code_name_ratio :
    ∀ w ∈ unitNames, Duration.scale_code w = .ok (ratioToSeconds w) := by
  intro w hw
  simp only [unitNames, List.mem_cons, List.not_mem_nil, or_false] at hw
  rcases hw with rfl | rfl | rfl | rfl | rfl | rfl | rfl | rfl
  · rfl
  · rw [show Duration.scale_code ("minutes".toList) = Except.ok ((1 : ℚ) * 60) from rfl,
      show ratioToSeconds ("minutes".toList) = (60 : ℚ) from rfl, Except.ok.injEq]
    norm_num
  · rw [show Duration.scale_code ("hours".toList) = Except.ok ((1 : ℚ) * 60 * 60) from rfl,
      show ratioToSeconds ("hours".toList) = (3600 : ℚ) from rfl, Except.ok.injEq]
    norm_num
  · rw [show Duration.scale_code ("days".toList) =
      Except.ok ((1 : ℚ) * 60 * 60 * 24) from rfl,
      show ratioToSeconds ("days".toList) = (86400 : ℚ) from rfl, Except.ok.injEq]
    norm_num
  · rw [show Duration.scale_code ("years".toList) =
      Except.ok ((1 : ℚ) * 60 * 60 * 24 * 365.25) from rfl,
      show ratioToSeconds ("years".toList) = (31557600 : ℚ) from rfl, Except.ok.injEq]
    norm_num
  · rw [show Duration.scale_code ("decades".toList) =
      Except.ok ((1 : ℚ) * 60 * 60 * 24 * 365.25 * 10) from rfl,
      show ratioToSeconds ("decades".toList) = ((10 : ℚ) * 31557600) from rfl, Except.ok.injEq]
    norm_num
  · rw [show Duration.scale_code ("centuries".toList) =
      Except.ok ((1 : ℚ) * 60 * 60 * 24 * 365.25 * 10 * 10) from rfl,
      show ratioToSeconds ("centuries".toList) = ((100 : ℚ) * 31557600) from rfl,
      Except.ok.injEq]
    norm_num
  · rw [show Duration.scale_code ("millennium".toList) =
      Except.ok ((1 : ℚ) * 60 * 60 * 24 * 365.25 * 10 * 10 * 10) from rfl,
      show ratioToSeconds ("millennium".toList) = ((1000 : ℚ) * 31557600) from rfl,
      Except.ok.injEq]
    norm_num

theorem resolve_step_none (code w : List Char) (l : List (List Char))
    (h : code ∉ split_code_word w) :
    (w :: l).findSome? (fun w0 => if (!code.isEmpty && code.isPrefixOf w0) = true
      then some (ratioToSeconds w0) else none) =
    l.findSome? (fun w0 => if (!code.isEmpty && code.isPrefixOf w0) = true
      then some (ratioToSeconds w0) else none) :=
  findSome?_cons_none _ _ _ (if_neg (fun hc => h (scw_bool.mp hc)))

theorem resolve_step_some (code w : List Char) (l : List (List Char))
    (h : code ∈ split_code_word w) :
    (w :: l).findSome? (fun w0 => if (!code.isEmpty && code.isPrefixOf w0) = true
      then some (ratioToSeconds w0) else none) = some (ratioToSeconds w) :=
  findSome?_cons_some _ _ _ _ (if_pos (scw_bool.mpr h))

theorem scale_eq_resolve (code : List Char) :
    Duration.scale_code code =
      match resolveSpec code with
      | some k => Except.ok k
      | none => Except.error (.unitError "Invalid duration code!") := by
  simp only [Duration.scale_code]
  by_cases h1 : code ∈ split_code_word "seconds".toList
  · rw [if_pos h1]
    have hres : resolveSpec code = some (ratioToSeconds ("seconds".toList)) := by
      unfold resolveSpec unitNames
      rw [resolve_step_some code _ _ h1]
    rw [hres, show ratioToSeconds ("seconds".toList) = (1 : ℚ) from rfl]
  rw [if_neg h1]
  by_cases h2 : code ∈ split_code_word "minutes".toList
  · rw [if_pos h2]
    have hres : resolveSpec code = some (ratioToSeconds ("minutes".toList)) := by
      unfold resolveSpec unitNames
      rw [resolve_step_none code _ _ h1, resolve_step_some code _ _ h2]
    rw [hres, show ratioToSeconds ("minutes".toList) = (60 : ℚ) from rfl]
    show Except.ok ((1 : ℚ) * 60) = Except.ok (60 : ℚ)
    rw [Except.ok.injEq]
    norm_num
  rw [if_neg h2]
  by_cases h3 : code ∈ split_code_word "hours".toList
  · rw [if_pos h3]
    have hres : resolveSpec code = some (ratioToSeconds ("hours".toList)) := by
      unfold resolveSpec unitNames
      rw [resolve_step_none code _ _ h1, resolve_step_none code _ _ h2, resolve_step_some code _ _ h3]
    rw [hres, show ratioToSeconds ("hours".toList) = (3600 : ℚ) from rfl]
    show Except.ok ((1 : ℚ) * 60 * 60) = Except.ok (3600 : ℚ)
    rw [Except.ok.injEq]
    norm_num
  rw [if_neg h3]
  by_cases h4 : code ∈ split_code_word "days".toList
  · rw [if_pos h4]
    have hres : resolveSpec code = some (ratioToSeconds ("days".toList)) := by
      unfold resolveSpec unitNames
      rw [resolve_step_none code _ _ h1, resolve_step_none code _ _ h2, resolve_step_none code _ _ h3, resolve_step_some code _ _ h4]
    rw [hres, show ratioToSeconds ("days".toList) = (86400 : ℚ) from rfl]
    show Except.ok ((1 : ℚ) * 60 * 60 * 24) = Except.ok (86400 : ℚ)
    rw [Except.ok.injEq]
    norm_num
  rw [if_neg h4]
  by_cases h5 : code ∈ split_code_word "years".toList
  · rw [if_pos h5]
    have hres : resolveSpec code = some (ratioToSeconds ("years".toList)) := by
      unfold resolveSpec unitNames
      rw [resolve_step_none code _ _ h1, resolve_step_none code _ _ h2, resolve_step_none code _ _ h3, resolve_step_none code _ _ h4, resolve_step_some code _ _ h5]
    rw [hres, show ratioToSeconds ("years".toList) = (31557600 : ℚ) from rfl]
    show Except.ok ((1 : ℚ) * 60 * 60 * 24 * 365.25) = Except.ok (31557600 : ℚ)
    rw [Except.ok.injEq]
    norm_num
  rw [if_neg h5]
  by_cases h6 : code ∈ split_code_word "decades".toList
  · rw [if_pos h6]
    have hres : resolveSpec code = some (ratioToSeconds ("decades".toList)) := by
      unfold resolveSpec unitNames
      rw [resolve_step_none code _ _ h1, resolve_step_none code _ _ h2, resolve_step_none code _ _ h3, resolve_step_none code _ _ h4, resolve_step_none code _ _ h5, resolve_step_some code _ _ h6]
    rw [hres, show ratioToSeconds ("decades".toList) = ((10 : ℚ) * 31557600) from rfl]
    show Except.ok ((1 : ℚ) * 60 * 60 * 24 * 365.25 * 10) = Except.ok ((10 : ℚ) * 31557600)
    rw [Except.ok.injEq]
    norm_num
  rw [if_neg h6]
  by_cases h7 : code ∈ split_code_word "centuries".toList
  · rw [if_pos h7]
    have hres : resolveSpec code = some (ratioToSeconds ("centuries".toList)) := by
      unfold resolveSpec unitNames
      rw [resolve_step_none code _ _ h1, resolve_step_none code _ _ h2, resolve_step_none code _ _ h3, resolve_step_none code _ _ h4, resolve_step_none code _ _ h5, resolve_step_none code _ _ h6, resolve_step_some code _ _ h7]
    rw [hres, show ratioToSeconds ("centuries".toList) = ((100 : ℚ) * 31557600) from rfl]
    show Except.ok ((1 : ℚ) * 60 * 60 * 24 * 365.25 * 10 * 10) = Except.ok ((100 : ℚ) * 31557600)
    rw [Except.ok.injEq]
    norm_num
  rw [if_neg h7]
  by_cases h8 : code ∈ split_code_word "millennium".toList
  · rw [if_pos h8]
    have hres : resolveSpec code = some (ratioToSeconds ("millennium".toList)) := by
      unfold resolveSpec unitNames
      rw [resolve_step_none code _ _ h1, resolve_step_none code _ _ h2, resolve_step_none code _ _ h3, resolve_step_none code _ _ h4, resolve_step_none code _ _ h5, resolve_step_none code _ _ h6, resolve_step_none code _ _ h7, resolve_step_some code _ _ h8]
    rw [hres, show ratioToSeconds ("millennium".toList) = ((1000 : ℚ) * 31557600) from rfl]
    show Except.ok ((1 : ℚ) * 60 * 60 * 24 * 365.25 * 10 * 10 * 10) = Except.ok ((1000 : ℚ) * 31557600)
    rw [Except.ok.injEq]
    norm_num
  rw [if_neg h8]
  have hres : resolveSpec code = none := by
    unfold resolveSpec unitNames
    rw [resolve_step_none code _ _ h1, resolve_step_none code _ _ h2, resolve_step_none code _ _ h3, resolve_step_none code _ _ h4, resolve_step_none code _ _ h5, resolve_step_none code _ _ h6, resolve_step_none code _ _ h7, resolve_step_none code _ _ h8]
    rfl
  rw [hres]

/-! ## Claim theorems -/

/-- C1: for every valid magnitude string and every recognized (full) unit
name, parsing `"<magnitude> <unitName>"` returns a `DurationSpec` whose
seconds value is the magnitude times the unit's fixed ratio to seconds:
seconds=1, minutes=60, hours=3600, days=86400, years=31557600
(365.25 days), decades=10×years, centuries=100×years,
millennium=1000×years. -/
theorem claim_c1_magnitude_times_ratio (m u : List Char)
    (hm : validMagnitude m = true) (hu : u ∈ unitNames) :
    ∃ q, floatOfChars m = some q ∧
      Duration.parse (m ++ (' ' :: u)) = .ok ⟨q * ratioToSeconds u⟩ := by
  obtain ⟨q, hq⟩ : ∃ q, floatOfChars m = some q := by
    unfold validMagnitude at hm
    exact Option.isSome_iff_exists.mp hm
  refine ⟨q, hq, ?_⟩
  have hrec : recognizedUnit u = true := by
    have h0 : ∀ w ∈ unitNames, recognizedUnit w = true := by decide
    exact h0 u hu
  obtain ⟨hune, huw, _⟩ := recognizedUnit_facts hrec
  have hp := parse_eval m u [' '] [] q hq (by decide) huw hune
    (fun h0 => absurd h0 (by simp)) (fun c hc => nomatch hc)
  rw [show m ++ ([' '] ++ (u ++ [])) = m ++ (' ' :: u) by simp] at hp
  rw [hp, scale_code_name_ratio u hu]
  rfl

/-- Witness for C1 at magnitude "5" and unit "minutes". -/
theorem claim_c1_witness :
    validMagnitude ("5".toList) = true ∧ ("minutes".toList) ∈ unitNames ∧
    ∃ q, floatOfChars ("5".toList) = some q ∧
      Duration.parse ("5".toList ++ (' ' :: "minutes".toList)) =
        .ok ⟨q * ratioToSeconds ("minutes".toList)⟩ :=
  ⟨by decide, by decide, claim_c1_magnitude_times_ratio _ _ (by decide) (by decide)⟩

/-- C2: unit resolution tests the units in increasing-magnitude order,
membership being in the unit name's non-empty-prefix set (`split_code_word`
holds exactly the non-empty prefixes), and the first match wins — the
source `scale_code` refines the spec's first-match walk `resolveSpec`; in
particular `parse("1s")` resolves to seconds (ratio 1), not to any later
unit. -/
theorem claim_c2_resolution_order :
    (∀ code w : List Char,
      code ∈ split_code_word w ↔ code ≠ [] ∧ code.isPrefixOf w = true) ∧
    (∀ code : List Char, Duration.scale_code code =
      match resolveSpec code with
      | some k => Except.ok k
      | none => Except.error (.unitError "Invalid duration code!")) ∧
    Duration.parse ("1s".toList) = .ok ⟨1⟩ := by
  refine ⟨fun code w => mem_scw, scale_eq_resolve, ?_⟩
  rw [show Duration.parse ("1s".toList) = .ok ⟨((1 : ℕ) : ℚ) * 1⟩ from rfl]
  norm_num

/-- C3: `from_value` clamps any integer into `[Trace.value, Error.value] =
[-2, 2]` and returns (without reaching the error branch) the member whose
value is the clamped integer; in particular `from_value 100 = Error` and
`from_value (-100) = Trace`. -/
theorem claim_c3_clamp :
    (∀ raw : Int, ∃ l, LogLevel.from_value raw = .ok l ∧
      l.value = min (LogLevel.value .Error) (max raw (LogLevel.value .Trace))) ∧
    LogLevel.value .Error = 2 ∧ LogLevel.value .Trace = -2 ∧
    LogLevel.from_value 100 = .ok .Error ∧ LogLevel.from_value (-100) = .ok .Trace := by
  refine ⟨?_, rfl, rfl, rfl, rfl⟩
  intro raw
  have h5 : LogLevel.clamped raw = -2 ∨ LogLevel.clamped raw = -1 ∨
      LogLevel.clamped raw = 0 ∨ LogLevel.clamped raw = 1 ∨ LogLevel.clamped raw = 2 := by
    unfold LogLevel.clamped
    rw [show LogLevel.value .Error = 2 from rfl, show LogLevel.value .Trace = -2 from rfl]
    omega
  rcases h5 with h | h | h | h | h
  · refine ⟨.Trace, ?_, ?_⟩
    · unfold LogLevel.from_value
      rw [h]
      rfl
    · show LogLevel.value .Trace = LogLevel.clamped raw
      rw [h]
      rfl
  · refine ⟨.Debug, ?_, ?_⟩
    · unfold LogLevel.from_value
      rw [h]
      rfl
    · show LogLevel.value .Debug = LogLevel.clamped raw
      rw [h]
      rfl
  · refine ⟨.Info, ?_, ?_⟩
    · unfold LogLevel.from_value
      rw [h]
      rfl
    · show LogLevel.value .Info = LogLevel.clamped raw
      rw [h]
      rfl
  · refine ⟨.Warn, ?_, ?_⟩
    · unfold LogLevel.from_value
      rw [h]
      rfl
    · show LogLevel.value .Warn = LogLevel.clamped raw
      rw [h]
      rfl
  · refine ⟨.Error, ?_, ?_⟩
    · unfold LogLevel.from_value
      rw [h]
      rfl
    · show LogLevel.value .Error = LogLevel.clamped raw
      rw [h]
      rfl

/-- C4: the built logger is a no-op (no sink call) below the cutoff, and at
or above the cutoff it stringifies the messages, joins them with one space,
wraps the joined string with the level's color, and passes the decorated
string to the sink exactly once. -/
theorem claim_c4_filter_and_format {α : Type} (colorize : String → String → String)
    (toStr : α → String) (cutoff level : LogLevel) (messages : List α) :
    (level.value < cutoff.value →
      LogLevel.log colorize toStr cutoff level messages = .ok []) ∧
    (cutoff.value ≤ level.value →
      ∃ c, LogLevel.color level = .ok c ∧
        LogLevel.log colorize toStr cutoff level messages =
          .ok [colorize (String.intercalate " " (messages.map toStr)) c]) := by
  constructor
  · intro h
    unfold LogLevel.log
    rw [if_pos h]
  · intro h
    have hnot : ¬(level.value < cutoff.value) := not_lt.mpr h
    unfold LogLevel.log
    rw [if_neg hnot]
    cases level <;> exact ⟨_, rfl, rfl⟩

/-- Witness for C4 with cutoff `Warn`: `Info` is filtered, `Error` reaches
the sink exactly once with the colored joined message. -/
theorem claim_c4_witness :
    (LogLevel.value .Info < LogLevel.value .Warn ∧
      LogLevel.log (fun s c => c ++ s) (fun s : String => s) .Warn .Info ["a", "b"] =
        .ok []) ∧
    (LogLevel.value .Warn ≤ LogLevel.value .Error ∧
      ∃ c, LogLevel.color .Error = .ok c ∧
        LogLevel.log (fun s c => c ++ s) (fun s : String => s) .Warn .Error ["a", "b"] =
          .ok [(fun s c => c ++ s)
            (String.intercalate " " (["a", "b"].map (fun s : String => s))) c]) :=
  ⟨⟨by decide, (claim_c4_filter_and_format _ _ _ _ _).1 (by decide)⟩,
   ⟨by decide, (claim_c4_filter_and_format _ _ _ _ _).2 (by decide)⟩⟩

/-- C5: the color map is total and non-erroring on the five levels and maps
Error→red, Warn→yellow, Info→white, Debug→magenta, Trace→cyan. -/
theorem claim_c5_color_total :
    LogLevel.color .Error = .ok "red" ∧ LogLevel.color .Warn = .ok "yellow" ∧
    LogLevel.color .Info = .ok "white" ∧ LogLevel.color .Debug = .ok "magenta" ∧
    LogLevel.color .Trace = .ok "cyan" ∧
    ∀ level : LogLevel, ∃ c, LogLevel.color level = .ok c := by
  refine ⟨rfl, rfl, rfl, rfl, rfl, ?_⟩
  intro level
  cases level <;> exact ⟨_, rfl⟩

/-- C6 counterexample: at `parse("5 zorp")` the unit token matches no
prefix set and parse does fail, but the signal raised by the source is the
literal "Invalid duration code!", not "unrecognized duration unit" as the
claim states. -/
theorem claim_c6_counterexample :
    Duration.parse ("5 zorp".toList) = .error (.unitError "Invalid duration code!") ∧
    "Invalid duration code!" ≠ "unrecognized duration unit" :=
  ⟨rfl, by decide⟩

/-- C6 amended: when the numeric part parses but the unit token matches no
unit's non-empty-prefix set, parse fails with the unit error, signalled
precisely as "Invalid duration code!" (the source's literal). -/
theorem claim_c6_amended_unknown_unit (m u : List Char)
    (hm : validMagnitude m = true) (hune : u ≠ [])
    (hu : ∀ c ∈ u, wordChar c = true)
    (hno : ∀ w ∈ unitNames, u ∉ split_code_word w) :
    Duration.parse (m ++ (' ' :: u)) = .error (.unitError "Invalid duration code!") := by
  obtain ⟨q, hq⟩ : ∃ q, floatOfChars m = some q := by
    unfold validMagnitude at hm
    exact Option.isSome_iff_exists.mp hm
  have hp := parse_eval m u [' '] [] q hq (by decide) hu hune
    (fun h0 => absurd h0 (by simp)) (fun c hc => nomatch hc)
  rw [show m ++ ([' '] ++ (u ++ [])) = m ++ (' ' :: u) by simp] at hp
  rw [hp]
  have hsc : Duration.scale_code u = .error (.unitError "Invalid duration code!") := by
    simp only [Duration.scale_code]
    rw [if_neg (hno _ (by decide)), if_neg (hno _ (by decide)), if_neg (hno _ (by decide)),
      if_neg (hno _ (by decide)), if_neg (hno _ (by decide)), if_neg (hno _ (by decide)),
      if_neg (hno _ (by decide)), if_neg (hno _ (by decide))]
  rw [hsc]
  rfl

/-- Witness for the amended C6 at "5 zorp". -/
theorem claim_c6_amended_witness :
    validMagnitude ("5".toList) = true ∧ "zorp".toList ≠ [] ∧
    (∀ c ∈ "zorp".toList, wordChar c = true) ∧
    (∀ w ∈ unitNames, "zorp".toList ∉ split_code_word w) ∧
    Duration.parse ("5".toList ++ (' ' :: "zorp".toList)) =
      .error (.unitError "Invalid duration code!") :=
  ⟨by decide, by decide, by decide, by decide,
    claim_c6_amended_unknown_unit _ _ (by decide) (by decide) (by decide) (by decide)⟩

/-- C7: on "abc" the regex matches with an empty numeric group, `float('')`
raises `ValueError` — the malformed-input `ParseError` of the spec — which
is raised synchronously and surfaced to the caller (here: returned as the
error value). -/
theorem claim_c7_malformed : Duration.parse ("abc".toList) = .error .badNumber := rfl

/-- C8: the derived accessors are the chained conversions
minutes = seconds/60, hours = minutes/60, days = hours/24,
years = days/365.25; and `parse("120 seconds").minutes = 2`,
`parse("365.25 days").years = 1`. -/
theorem claim_c8_derived_conversions :
    (∀ d : Duration, d.minutes = d.seconds / 60 ∧ d.hours = d.minutes / 60 ∧
      d.days = d.hours / 24 ∧ d.years = d.days / 365.25) ∧
    (Duration.parse ("120 seconds".toList)).map Duration.minutes = .ok 2 ∧
    (Duration.parse ("365.25 days".toList)).map Duration.years = .ok 1 := by
  refine ⟨fun d => ⟨rfl, rfl, rfl, rfl⟩, ?_, ?_⟩
  · rw [show Duration.parse ("120 seconds".toList) = .ok ⟨((120 : ℕ) : ℚ) * 1⟩ from rfl]
    simp only [Except.map, Duration.minutes, Duration.seconds]
    norm_num
  · rw [show Duration.parse ("365.25 days".toList) =
      .ok ⟨(((365 : ℕ) : ℚ) + ((25 : ℕ) : ℚ) / (10 : ℚ) ^ (2 : ℕ)) *
        ((1 : ℚ) * 60 * 60 * 24)⟩ from rfl]
    simp only [Except.map, Duration.years, Duration.days, Duration.hours, Duration.minutes,
      Duration.seconds]
    norm_num

/-- C9: parse does not validate the characters after the matched pair: for
a valid magnitude and recognized unit token followed by whitespace and
arbitrary further text, parse succeeds with the same seconds value as
without the trailing text. -/
theorem claim_c9_trailing_ignored (m u r : List Char) (q : ℚ)
    (hm : floatOfChars m = some q) (hu : recognizedUnit u = true)
    (hr : ∀ c, r.head? = some c → pySpace c = true) :
    ∃ k, Duration.scale_code u = .ok k ∧
      Duration.parse (m ++ (' ' :: (u ++ r))) = .ok ⟨q * k⟩ ∧
      Duration.parse (m ++ (' ' :: u)) = .ok ⟨q * k⟩ := by
  obtain ⟨hune, huw, _⟩ := recognizedUnit_facts hu
  obtain ⟨k, hk⟩ := scale_code_of_recognized hu
  refine ⟨k, hk, ?_, ?_⟩
  · have hp := parse_eval m u [' '] r q hm (by decide) huw hune
      (fun h0 => absurd h0 (by simp)) hr
    rw [show m ++ ([' '] ++ (u ++ r)) = m ++ (' ' :: (u ++ r)) by simp] at hp
    rw [hp, hk]
    rfl
  · have hp := parse_eval m u [' '] [] q hm (by decide) huw hune
      (fun h0 => absurd h0 (by simp)) (fun c hc => nomatch hc)
    rw [show m ++ ([' '] ++ (u ++ [])) = m ++ (' ' :: u) by simp] at hp
    rw [hp, hk]
    rfl

/-- Witness for C9 at "5 days extra text". -/
theorem claim_c9_witness :
    floatOfChars ("5".toList) = some ((5 : ℕ) : ℚ) ∧
    recognizedUnit ("days".toList) = true ∧
    (∀ c, (" extra text".toList).head? = some c → pySpace c = true) ∧
    ∃ k, Duration.scale_code ("days".toList) = .ok k ∧
      Duration.parse ("5".toList ++ (' ' :: ("days".toList ++ " extra text".toList))) =
        .ok ⟨((5 : ℕ) : ℚ) * k⟩ ∧
      Duration.parse ("5".toList ++ (' ' :: "days".toList)) = .ok ⟨((5 : ℕ) : ℚ) * k⟩ :=
  ⟨rfl, by decide, fun c hc => Option.some.inj hc ▸ rfl,
    claim_c9_trailing_ignored _ _ _ _ rfl (by decide)
      (fun c hc => Option.some.inj hc ▸ rfl)⟩

/-- C10: the whitespace between magnitude and unit token is optional:
`parse(m ++ u)` succeeds and yields the same seconds value as
`parse(m ++ " " ++ u)`. -/
theorem claim_c10_space_optional (m u : List Char) (q : ℚ)
    (hm : floatOfChars m = some q) (hu : recognizedUnit u = true) :
    ∃ k, Duration.scale_code u = .ok k ∧
      Duration.parse (m ++ u) = .ok ⟨q * k⟩ ∧
      Duration.parse (m ++ (' ' :: u)) = .ok ⟨q * k⟩ := by
  obtain ⟨hune, huw, hud⟩ := recognizedUnit_facts hu
  obtain ⟨k, hk⟩ := scale_code_of_recognized hu
  refine ⟨k, hk, ?_, ?_⟩
  · have hp := parse_eval m u [] [] q hm (fun c hc => nomatch hc) huw hune
      (fun _ => hud) (fun c hc => nomatch hc)
    rw [show m ++ ([] ++ (u ++ [])) = m ++ u by simp] at hp
    rw [hp, hk]
    rfl
  · have hp := parse_eval m u [' '] [] q hm (by decide) huw hune
      (fun h0 => absurd h0 (by simp)) (fun c hc => nomatch hc)
    rw [show m ++ ([' '] ++ (u ++ [])) = m ++ (' ' :: u) by simp] at hp
    rw [hp, hk]
    rfl

/-- Witness for C10 at "3.5" and "minutes": "3.5minutes" parses like
"3.5 minutes". -/
theorem claim_c10_witness :
    floatOfChars ("3.5".toList) = some (((3 : ℕ) : ℚ) + ((5 : ℕ) : ℚ) / (10 : ℚ) ^ (1 : ℕ)) ∧
    recognizedUnit ("minutes".toList) = true ∧
    ∃ k, Duration.scale_code ("minutes".toList) = .ok k ∧
      Duration.parse ("3.5".toList ++ "minutes".toList) =
        .ok ⟨(((3 : ℕ) : ℚ) + ((5 : ℕ) : ℚ) / (10 : ℚ) ^ (1 : ℕ)) * k⟩ ∧
      Duration.parse ("3.5".toList ++ (' ' :: "minutes".toList)) =
        .ok ⟨(((3 : ℕ) : ℚ) + ((5 : ℕ) : ℚ) / (10 : ℚ) ^ (1 : ℕ)) * k⟩ :=
  ⟨rfl, by decide, claim_c10_space_optional _ _ _ rfl (by decide)⟩

end Diceware
